import Mathlib

/-!
Verification of the document-structure inference engine of
`simple_pdf_to_markdown.py` (PDF text → Markdown converter).

The Python source is shallowly embedded: strings become `String`
(reasoned about through their `List Char` data), font sizes and
coordinates become `ℚ`, fallible values become `Option`, and the
per-page reassembly loop becomes an explicit state machine
(`stepLine` / `processLines`).  Python truthiness tests (`if not x`)
are modelled by explicit emptiness / zero tests at each site.
-/

namespace PdfMd

/-- Characters Python's `\s` / `str.strip()` treat as whitespace
(ASCII whitespace plus the common Unicode spaces that occur here). -/
def isPySpace (c : Char) : Bool :=
  c = ' ' || c = '\t' || c = '\n' || c = '\r' || c = '\x0b' || c = '\x0c' ||
  c = ' ' || c = '　'

/-- `str.strip()` on the character list. -/
def stripChars (cs : List Char) : List Char :=
  ((cs.dropWhile isPySpace).reverse.dropWhile isPySpace).reverse

/-- `str.strip()`. -/
def pyStrip (s : String) : String :=
  String.mk (stripChars s.data)

/-- Does `small` occur as a leading segment of `big`? -/
def listStartsWith : List Char → List Char → Bool
  | [], _ => true
  | _ :: _, [] => false
  | a :: as, b :: bs => a = b && listStartsWith as bs

/-- Python `needle in hay` substring test (arguments: the haystack list
comes second). -/
def listContains (needle : List Char) : List Char → Bool
  | [] => listStartsWith needle []
  | c :: t => listStartsWith needle (c :: t) || listContains needle t

/-- Python `needle in hay` on strings. -/
def strContains (hay needle : String) : Bool :=
  listContains needle.data hay.data

/-- Case-insensitive substring test (both sides lowered); used only to
state what a case-insensitive match for "bold" would accept. -/
def strContainsCI (hay needle : String) : Bool :=
  listContains (needle.data.map Char.toLower) (hay.data.map Char.toLower)

/-- `text.split('\n')` on the character list: split at every newline,
keeping empty segments. -/
def splitNl : List Char → List (List Char)
  | [] => [[]]
  | c :: rest =>
    match splitNl rest with
    | [] => [[c]]
    | g :: gs => if c = '\n' then [] :: g :: gs else (c :: g) :: gs

/-- Python `text.split('\n')`. -/
def pySplitLines (s : String) : List String :=
  (splitNl s.data).map String.mk

/-- `sep.join(parts)` in Python. -/
def pyJoin (sep : String) : List String → String
  | [] => ""
  | [s] => s
  | s :: t :: r => s ++ sep ++ pyJoin sep (t :: r)

/-- The bullet glyph class of `CONFIG['bullet_patterns'][0]`. -/
def isBulletGlyph (c : Char) : Bool :=
  c = '•' || c = '・' || c = '●' || c = '○' || c = '◆' || c = '◇' ||
  c = '▪' || c = '▫' || c = '■' || c = '□' || c = '►' || c = '▸' ||
  c = '‣' || c = '⁃'

/-- The circled-numeral class ①–⑳ of `CONFIG['numbered_patterns'][2]`
(codepoints U+2460 through U+2473 are contiguous). -/
def isCircledNum (c : Char) : Bool :=
  decide ('①' ≤ c) && decide (c ≤ '⑳')

/-- `\d`. -/
def isAsciiDigit (c : Char) : Bool :=
  c.isDigit

/-- Anchored match of `^[\s]*[•・●○◆◇▪▫■□►▸‣⁃]\s*`, returning the
suffix after the match. -/
def bulletMatch1 (cs : List Char) : Option (List Char) :=
  match cs.dropWhile isPySpace with
  | c :: rest => if isBulletGlyph c then some (rest.dropWhile isPySpace) else none
  | [] => none

/-- Anchored match of `^[\s]*[-\*]\s+`, returning the suffix after the
match. -/
def bulletMatch2 (cs : List Char) : Option (List Char) :=
  match cs.dropWhile isPySpace with
  | c :: rest =>
    if c = '-' || c = '*' then
      match rest with
      | d :: _ => if isPySpace d then some (rest.dropWhile isPySpace) else none
      | [] => none
    else none
  | [] => none

/-- Anchored match of `^[\s]*(\d+)[\.）\)]\s*`. -/
def numberedMatch1 (cs : List Char) : Option (List Char) :=
  let r := cs.dropWhile isPySpace
  if r.takeWhile isAsciiDigit = [] then none
  else
    match r.dropWhile isAsciiDigit with
    | c :: rest =>
        if c = '.' || c = '）' || c = ')' then some (rest.dropWhile isPySpace) else none
    | [] => none

/-- Anchored match of `^[\s]*[\(（](\d+)[\)）]\s*`. -/
def numberedMatch2 (cs : List Char) : Option (List Char) :=
  match cs.dropWhile isPySpace with
  | c :: rest =>
    if c = '(' || c = '（' then
      if rest.takeWhile isAsciiDigit = [] then none
      else
        match rest.dropWhile isAsciiDigit with
        | d :: rest2 =>
            if d = ')' || d = '）' then some (rest2.dropWhile isPySpace) else none
        | [] => none
    else none
  | [] => none

/-- Anchored match of `^[\s]*([①②③④⑤⑥⑦⑧⑨⑩⑪⑫⑬⑭⑮⑯⑰⑱⑲⑳])\s*`. -/
def numberedMatch3 (cs : List Char) : Option (List Char) :=
  match cs.dropWhile isPySpace with
  | c :: rest => if isCircledNum c then some (rest.dropWhile isPySpace) else none
  | [] => none

/-- `is_bullet_list`: does the text match one of the bullet patterns? -/
def is_bullet_list (text : String) : Bool :=
  (bulletMatch1 text.data).isSome || (bulletMatch2 text.data).isSome

/-- `is_numbered_list`: does the text match one of the numbered patterns? -/
def is_numbered_list (text : String) : Bool :=
  (numberedMatch1 text.data).isSome || (numberedMatch2 text.data).isSome ||
  (numberedMatch3 text.data).isSome

/-- `re.sub(pattern, '', text)` for one of the anchored patterns above:
the prefix match, if any, is removed. -/
def subMatch (m : List Char → Option (List Char)) (cs : List Char) : List Char :=
  match m cs with
  | some rest => rest
  | none => cs

/-- `clean_bullet_text`: strip each bullet pattern in turn, then strip
whitespace. -/
def clean_bullet_text (text : String) : String :=
  String.mk (stripChars (subMatch bulletMatch2 (subMatch bulletMatch1 text.data)))

/-- `clean_numbered_text`: strip each numbered pattern in turn, then
strip whitespace. -/
def clean_numbered_text (text : String) : String :=
  String.mk (stripChars
    (subMatch numberedMatch3 (subMatch numberedMatch2 (subMatch numberedMatch1 text.data))))

/-- `get_heading_level`: `None`/`0` body or font size is falsy and gives
no heading; otherwise the ratio is compared against the fixed
`CONFIG['heading_size_ratio']` thresholds, largest first. -/
def get_heading_level (font_size : Option ℚ) (body_size : ℚ) : Option ℕ :=
  match font_size with
  | none => none
  | some fs =>
    if body_size = 0 ∨ fs = 0 then none
    else
      let ratio := fs / body_size
      if (1.5 : ℚ) ≤ ratio then some 1
      else if (1.3 : ℚ) ≤ ratio then some 2
      else if (1.15 : ℚ) ≤ ratio then some 3
      else none

/-- A table cell as handed over by the page library: a string or `None`.
`str(cell) if cell else ''` renders falsy cells (`None`, `''`) as `''`. -/
def cellStr : Option String → String
  | none => ""
  | some s => s

/-- `cell.replace('\n', ' ')` (single-character pattern, so a
character-wise map). -/
def replaceNlSpace (s : String) : String :=
  String.mk (s.data.map (fun c => if c = '\n' then ' ' else c))

/-- `table_to_markdown`: header line, separator line, then data lines
with newline-normalized cells, joined by newlines.  An empty grid or an
empty header row gives the empty string. -/
def table_to_markdown (table : List (List (Option String))) : String :=
  match table with
  | [] => ""
  | header :: rows =>
    if header = [] then ""
    else
      pyJoin "\n"
        (("| " ++ pyJoin " | " (header.map cellStr) ++ " |")
         :: ("| " ++ pyJoin " | " (List.replicate header.length "---") ++ " |")
         :: rows.map (fun row =>
              "| " ++ pyJoin " | " (row.map (fun cell => replaceNlSpace (cellStr cell))) ++ " |"))

/-- One character as supplied by the page library: glyph text, size and
font name (both possibly absent), and coordinates. -/
structure PChar where
  text : String
  size : Option ℚ
  fontname : String
  x0 : ℚ
  top : ℚ
deriving DecidableEq, Repr

/-- One page as seen by the core: the result of `page.extract_text()`
(`none` models `None`), the character list, and the grids returned by
`page.extract_tables()`.  All three are supplied by the external page
library. -/
structure Page where
  extractText : Option String
  chars : List PChar
  tables : List (List (List (Option String)))
deriving DecidableEq, Repr

/-- Python's `round(q)` (banker's rounding: ties go to the even
integer). -/
def roundHalfEven (q : ℚ) : ℤ :=
  let f := ⌊q⌋
  if q - f < 1 / 2 then f
  else if 1 / 2 < q - f then f + 1
  else if f % 2 = 0 then f else f + 1

/-- Python's `round(q, 1)`. -/
def round1 (q : ℚ) : ℚ :=
  (roundHalfEven (q * 10) : ℚ) / 10

/-- `c.get('size')` filtered through Python truthiness: `None` and `0`
are dropped. -/
def truthySize (c : PChar) : Option ℚ :=
  match c.size with
  | none => none
  | some s => if s = 0 then none else some s

/-- Stable insertion (used to model Python's stable `sorted`). -/
def insertLe (le : α → α → Bool) (x : α) : List α → List α
  | [] => [x]
  | y :: ys => if le x y then x :: y :: ys else y :: insertLe le x ys

/-- Stable sort by `le` (equal elements keep their input order, as with
Python's `sorted`). -/
def sortLe (le : α → α → Bool) (l : List α) : List α :=
  l.foldr (insertLe le) []

/-- First-occurrence deduplication (dict keys keep insertion order). -/
def dedupFirstAux [DecidableEq α] (seen : List α) : List α → List α
  | [] => []
  | x :: xs => if x ∈ seen then dedupFirstAux seen xs else x :: dedupFirstAux (x :: seen) xs

/-- First-occurrence deduplication of a list. -/
def dedupFirst [DecidableEq α] (l : List α) : List α :=
  dedupFirstAux [] l

/-- `round(char.get('top', 0), 0)`: the vertical key a character is
grouped under. -/
def yKeyOf (c : PChar) : ℤ :=
  roundHalfEven c.top

/-- `char_lines[y]`: the page's characters whose rounded vertical
coordinate is `y`, in their original order (dict-append order). -/
def lineGroup (chars : List PChar) (y : ℤ) : List PChar :=
  chars.filter (fun c => decide (yKeyOf c = y))

/-- `sorted(char_lines.keys())`. -/
def sortedKeys (chars : List PChar) : List ℤ :=
  sortLe (fun a b => decide (a ≤ b)) (dedupFirst (chars.map yKeyOf))

/-- One assembled line: text, average font size (`None` when no
character carries a usable size), bold flag. -/
structure LineInfo where
  text : String
  font_size : Option ℚ
  is_bold : Bool
deriving DecidableEq, Repr

/-- `sorted(char_lines[y], key=lambda c: c.get('x0', 0))`. -/
def sortByX0 (cs : List PChar) : List PChar :=
  sortLe (fun a b => decide (a.x0 ≤ b.x0)) cs

/-- Build one line from a vertical group of characters: concatenate the
glyph texts in horizontal order, strip, drop the line if empty, average
the truthy sizes, and set bold iff some font name contains `'Bold'` or
`'bold'`. -/
def buildLine (group : List PChar) : Option LineInfo :=
  let line_chars := sortByX0 group
  let line_text := pyStrip (pyJoin "" (line_chars.map PChar.text))
  if line_text = "" then none
  else
    let line_sizes := line_chars.filterMap truthySize
    let avg_size : Option ℚ :=
      if line_sizes = [] then none
      else some (line_sizes.sum / (line_sizes.length : ℚ))
    some ⟨line_text,
          avg_size,
          (line_chars.map PChar.fontname).any
            (fun fn => strContains fn "Bold" || strContains fn "bold")⟩

/-- `extract_text_with_formatting`: falsy extracted text gives no lines;
a page without character data degrades to stripped plain-text lines with
no size and `bold=False`; otherwise lines are assembled from the
vertical character groups in increasing vertical order.  (The
`body_size` parameter is carried but unused, as in the source.) -/
def extract_text_with_formatting (page : Page) (body_size : ℚ) : List LineInfo :=
  match page.extractText with
  | none => []
  | some text =>
    if text = "" then []
    else if page.chars = [] then
      (pySplitLines text).filterMap (fun line =>
        let s := pyStrip line
        if s = "" then none else some ⟨s, none, false⟩)
    else
      (sortedKeys page.chars).filterMap (fun y => buildLine (lineGroup page.chars y))

/-- The `part_type` tags of the `md_parts` tuples. -/
inductive Kind where
  | table
  | heading
  | bullet
  | numbered
  | bold
  | paragraph
deriving DecidableEq, Repr

/-- `current_list_type ∈ {None, 'bullet', 'numbered'}`. -/
inductive ListType where
  | nolist
  | bullet
  | numbered
deriving DecidableEq, Repr

/-- The reassembly state of `process_page`'s loop: current list type,
numbered counter, pending paragraph lines. -/
structure PState where
  listType : ListType
  counter : ℕ
  para : List String
deriving DecidableEq, Repr

/-- The state at the top of `process_page`. -/
def initState : PState :=
  ⟨ListType.nolist, 0, []⟩

/-- Flushing `paragraph_lines`: one paragraph part joined with single
spaces when the buffer is non-empty, nothing otherwise. -/
def flushPara (para : List String) : List (Kind × String) :=
  if para = [] then [] else [(Kind.paragraph, pyJoin " " para)]

/-- `'#' * heading_level`. -/
def hashes (n : ℕ) : String :=
  String.mk (List.replicate n '#')

/-- One iteration of `process_page`'s line loop: same branch order as
the source (heading, bullet, numbered, short bold, paragraph), returning
the new state and the parts appended. -/
def stepLine (body_size : ℚ) (st : PState) (li : LineInfo) : PState × List (Kind × String) :=
  match get_heading_level li.font_size body_size with
  | some lvl =>
      (⟨ListType.nolist, st.counter, []⟩,
       flushPara st.para ++ [(Kind.heading, hashes lvl ++ " " ++ li.text)])
  | none =>
    if is_bullet_list li.text then
      (⟨ListType.bullet, st.counter, []⟩,
       flushPara st.para ++ [(Kind.bullet, "- " ++ clean_bullet_text li.text)])
    else if is_numbered_list li.text then
      (⟨ListType.numbered, (if st.listType = ListType.numbered then st.counter else 0) + 1, []⟩,
       flushPara st.para ++
         [(Kind.numbered,
           toString ((if st.listType = ListType.numbered then st.counter else 0) + 1) ++ ". " ++
             clean_numbered_text li.text)])
    else if li.is_bold && decide (li.text.length < 100) then
      (⟨ListType.nolist, st.counter, []⟩,
       flushPara st.para ++ [(Kind.bold, "**" ++ li.text ++ "**")])
    else
      (⟨ListType.nolist, st.counter, st.para ++ [li.text]⟩, [])

/-- The line loop of `process_page`, threading the state and
accumulating the emitted parts. -/
def processLines (body_size : ℚ) (st : PState) : List LineInfo → PState × List (Kind × String)
  | [] => (st, [])
  | li :: rest =>
      let r1 := stepLine body_size st li
      let r2 := processLines body_size r1.1 rest
      (r2.1, r1.2 ++ r2.2)

/-- The text parts a line list contributes, including the final
paragraph flush at end of page. -/
def textPartsFrom (body_size : ℚ) (st : PState) (lines : List LineInfo) : List (Kind × String) :=
  (processLines body_size st lines).2 ++ flushPara (processLines body_size st lines).1.para

/-- The table parts of a page: one `('table', md)` part per grid whose
rendering is non-empty (truthiness of the rendered string). -/
def tableParts (page : Page) : List (Kind × String) :=
  page.tables.filterMap (fun t =>
    let md := table_to_markdown t
    if md = "" then none else some (Kind.table, md))

/-- `process_page`: table parts first, then the reassembled text parts. -/
def processPage (page : Page) (body_size : ℚ) : List (Kind × String) :=
  tableParts page ++ textPartsFrom body_size initState (extract_text_with_formatting page body_size)

/-- The per-line classification implicit in `process_page`'s branch
order; used to state run properties of the reassembly loop. -/
inductive LineCat where
  | heading (lvl : ℕ)
  | bullet
  | numbered
  | emphasized
  | paragraph
deriving DecidableEq, Repr

/-- Classification of one line, mirroring `stepLine`'s branch order. -/
def classify (body_size : ℚ) (li : LineInfo) : LineCat :=
  match get_heading_level li.font_size body_size with
  | some lvl => LineCat.heading lvl
  | none =>
    if is_bullet_list li.text then LineCat.bullet
    else if is_numbered_list li.text then LineCat.numbered
    else if li.is_bold && decide (li.text.length < 100) then LineCat.emphasized
    else LineCat.paragraph

/-- `Counter(xs).most_common(1)[0][0]`: the value with the highest
count; CPython's stable sort breaks count ties in favour of the
first-inserted key.  (Only called on non-empty lists; `0` is a dummy.) -/
def mostCommonFirst (xs : List ℚ) : List ℚ → ℚ
  | [] => 0
  | u :: us => us.foldl (fun best v => if xs.count v > xs.count best then v else best) u

/-- The blank-separator logic of `convert_pdf_to_markdown`'s inner loop:
a blank line before a part whose type differs from the previous part's
and is one of heading / paragraph / table. -/
def pageLines : Option Kind → List (Kind × String) → List String
  | _, [] => []
  | prev, (t, content) :: rest =>
      (match prev with
       | none => []
       | some pt =>
         if pt ≠ t ∧ (t = Kind.heading ∨ t = Kind.paragraph ∨ t = Kind.table)
         then [""] else []) ++
      content :: pageLines (some t) rest

/-- The page loop of `convert_pdf_to_markdown`: each page's lines, with
one blank line after every page but the last (`page_num < total`). -/
def convertPages (body : ℚ) (total : ℕ) : ℕ → List Page → List String
  | _, [] => []
  | num, p :: rest =>
      pageLines none (processPage p body) ++
      (if num < total then [""] else []) ++
      convertPages body total (num + 1) rest

/-- `convert_pdf_to_markdown`: pool all truthy character sizes, take the
mode of their one-decimal roundings as the body size (default `12`),
process the pages in order, and join everything with newlines. -/
def convert_pdf_to_markdown (pdf : List Page) : String :=
  let all_sizes := (pdf.map (fun p => p.chars.filterMap truthySize)).flatten
  let body_size : ℚ :=
    if all_sizes = [] then 12
    else mostCommonFirst (all_sizes.map round1) (dedupFirst (all_sizes.map round1))
  pyJoin "\n" (convertPages body_size pdf.length 1 pdf)

/-! ### Characterization of one loop iteration by the line's category -/

theorem stepLine_heading (bs : ℚ) (st : PState) (li : LineInfo) (lvl : ℕ)
    (h : classify bs li = LineCat.heading lvl) :
    stepLine bs st li =
      (⟨ListType.nolist, st.counter, []⟩,
       flushPara st.para ++ [(Kind.heading, hashes lvl ++ " " ++ li.text)]) := by
  unfold classify at h
  unfold stepLine
  cases hg : get_heading_level li.font_size bs with
  | some l0 =>
      rw [hg] at h
      simp only [LineCat.heading.injEq] at h
      rw [h]
  | none =>
      rw [hg] at h
      by_cases hb : is_bullet_list li.text
      · simp [hb] at h
      · by_cases hn : is_numbered_list li.text
        · simp [hb, hn] at h
        · by_cases he : (li.is_bold && decide (li.text.length < 100)) = true
          · simp [hb, hn, he] at h
          · simp [hb, hn, he] at h

theorem stepLine_bullet (bs : ℚ) (st : PState) (li : LineInfo)
    (h : classify bs li = LineCat.bullet) :
    stepLine bs st li =
      (⟨ListType.bullet, st.counter, []⟩,
       flushPara st.para ++ [(Kind.bullet, "- " ++ clean_bullet_text li.text)]) := by
  unfold classify at h
  unfold stepLine
  cases hg : get_heading_level li.font_size bs with
  | some l0 => rw [hg] at h; cases h
  | none =>
      rw [hg] at h
      by_cases hb : is_bullet_list li.text
      · simp [hb]
      · by_cases hn : is_numbered_list li.text
        · simp [hb, hn] at h
        · by_cases he : (li.is_bold && decide (li.text.length < 100)) = true
          · simp [hb, hn, he] at h
          · simp [hb, hn, he] at h

theorem stepLine_numbered (bs : ℚ) (st : PState) (li : LineInfo)
    (h : classify bs li = LineCat.numbered) :
    stepLine bs st li =
      (⟨ListType.numbered, (if st.listType = ListType.numbered then st.counter else 0) + 1, []⟩,
       flushPara st.para ++
         [(Kind.numbered,
           toString ((if st.listType = ListType.numbered then st.counter else 0) + 1) ++ ". " ++
             clean_numbered_text li.text)]) := by
  unfold classify at h
  unfold stepLine
  cases hg : get_heading_level li.font_size bs with
  | some l0 => rw [hg] at h; cases h
  | none =>
      rw [hg] at h
      by_cases hb : is_bullet_list li.text
      · simp [hb] at h
      · by_cases hn : is_numbered_list li.text
        · simp [hb, hn]
        · by_cases he : (li.is_bold && decide (li.text.length < 100)) = true
          · simp [hb, hn, he] at h
          · simp [hb, hn, he] at h

theorem stepLine_emphasized (bs : ℚ) (st : PState) (li : LineInfo)
    (h : classify bs li = LineCat.emphasized) :
    stepLine bs st li =
      (⟨ListType.nolist, st.counter, []⟩,
       flushPara st.para ++ [(Kind.bold, "**" ++ li.text ++ "**")]) := by
  unfold classify at h
  unfold stepLine
  cases hg : get_heading_level li.font_size bs with
  | some l0 => rw [hg] at h; cases h
  | none =>
      rw [hg] at h
      by_cases hb : is_bullet_list li.text
      · simp [hb] at h
      · by_cases hn : is_numbered_list li.text
        · simp [hb, hn] at h
        · by_cases he : (li.is_bold && decide (li.text.length < 100)) = true
          · simp [hb, hn, he]
          · simp [hb, hn, he] at h

theorem stepLine_paragraph (bs : ℚ) (st : PState) (li : LineInfo)
    (h : classify bs li = LineCat.paragraph) :
    stepLine bs st li = (⟨ListType.nolist, st.counter, st.para ++ [li.text]⟩, []) := by
  unfold classify at h
  unfold stepLine
  cases hg : get_heading_level li.font_size bs with
  | some l0 => rw [hg] at h; cases h
  | none =>
      rw [hg] at h
      by_cases hb : is_bullet_list li.text
      · simp [hb] at h
      · by_cases hn : is_numbered_list li.text
        · simp [hb, hn] at h
        · by_cases he : (li.is_bold && decide (li.text.length < 100)) = true
          · simp [hb, hn, he] at h
          · simp [hb, hn, he]

theorem stepLine_numbered_cont (bs : ℚ) (st : PState) (li : LineInfo)
    (h : classify bs li = LineCat.numbered) (hst : st.listType = ListType.numbered) :
    stepLine bs st li =
      (⟨ListType.numbered, st.counter + 1, []⟩,
       flushPara st.para ++
         [(Kind.numbered, toString (st.counter + 1) ++ ". " ++ clean_numbered_text li.text)]) := by
  rw [stepLine_numbered bs st li h]
  simp [hst]

theorem stepLine_numbered_reset (bs : ℚ) (st : PState) (li : LineInfo)
    (h : classify bs li = LineCat.numbered) (hst : st.listType ≠ ListType.numbered) :
    stepLine bs st li =
      (⟨ListType.numbered, 1, []⟩,
       flushPara st.para ++
         [(Kind.numbered, toString 1 ++ ". " ++ clean_numbered_text li.text)]) := by
  rw [stepLine_numbered bs st li h]
  simp [hst]

/-- The list type a line's category leaves behind in the state. -/
def ltOfCat : LineCat → ListType
  | LineCat.heading _ => ListType.nolist
  | LineCat.bullet => ListType.bullet
  | LineCat.numbered => ListType.numbered
  | LineCat.emphasized => ListType.nolist
  | LineCat.paragraph => ListType.nolist

theorem ltOfCat_numbered {c : LineCat} (h : ltOfCat c = ListType.numbered) :
    c = LineCat.numbered := by
  cases c <;> simp_all [ltOfCat]

theorem stepLine_listType (bs : ℚ) (st : PState) (li : LineInfo) :
    (stepLine bs st li).1.listType = ltOfCat (classify bs li) := by
  cases hc : classify bs li with
  | heading lvl => rw [stepLine_heading bs st li lvl hc]; rfl
  | bullet => rw [stepLine_bullet bs st li hc]; rfl
  | numbered => rw [stepLine_numbered bs st li hc]; rfl
  | emphasized => rw [stepLine_emphasized bs st li hc]; rfl
  | paragraph => rw [stepLine_paragraph bs st li hc]; rfl

theorem stepLine_para_empty (bs : ℚ) (st : PState) (li : LineInfo)
    (h : classify bs li ≠ LineCat.paragraph) :
    (stepLine bs st li).1.para = [] := by
  cases hc : classify bs li with
  | heading lvl => rw [stepLine_heading bs st li lvl hc]
  | bullet => rw [stepLine_bullet bs st li hc]
  | numbered => rw [stepLine_numbered bs st li hc]
  | emphasized => rw [stepLine_emphasized bs st li hc]
  | paragraph => exact absurd hc h

/-! ### Splitting `processLines` along concatenations and runs -/

theorem processLines_append (bs : ℚ) (st : PState) (xs ys : List LineInfo) :
    processLines bs st (xs ++ ys) =
      ((processLines bs (processLines bs st xs).1 ys).1,
       (processLines bs st xs).2 ++ (processLines bs (processLines bs st xs).1 ys).2) := by
  induction xs generalizing st with
  | nil => simp [processLines]
  | cons x xs ih =>
      simp only [List.cons_append, processLines, List.append_eq]
      rw [ih ((stepLine bs st x).1)]
      simp [List.append_assoc]

theorem textPartsFrom_append (bs : ℚ) (st : PState) (xs ys : List LineInfo) :
    textPartsFrom bs st (xs ++ ys) =
      (processLines bs st xs).2 ++ textPartsFrom bs (processLines bs st xs).1 ys := by
  unfold textPartsFrom
  rw [processLines_append]
  simp [List.append_assoc]

theorem processLines_listType_getLast (bs : ℚ) (ls : List LineInfo) (l : LineInfo)
    (h : ls.getLast? = some l) :
    ∀ st : PState, (processLines bs st ls).1.listType = ltOfCat (classify bs l) := by
  induction ls with
  | nil => cases h
  | cons a as ih =>
      intro st
      cases as with
      | nil =>
          simp only [List.getLast?_singleton, Option.some.injEq] at h
          subst h
          simp only [processLines]
          exact stepLine_listType bs st a
      | cons b bs' =>
          rw [List.getLast?_cons_cons] at h
          simp only [processLines]
          exact ih h (stepLine bs st a).1

theorem processLines_para_getLast (bs : ℚ) (ls : List LineInfo) (l : LineInfo)
    (h : ls.getLast? = some l) (hnp : classify bs l ≠ LineCat.paragraph) :
    ∀ st : PState, (processLines bs st ls).1.para = [] := by
  induction ls with
  | nil => cases h
  | cons a as ih =>
      intro st
      cases as with
      | nil =>
          simp only [List.getLast?_singleton, Option.some.injEq] at h
          subst h
          simp only [processLines]
          exact stepLine_para_empty bs st a hnp
      | cons b bs' =>
          rw [List.getLast?_cons_cons] at h
          simp only [processLines]
          exact ih h (stepLine bs st a).1

/-- Position-indexed pairing, used to state what ordinal each element of
a run receives. -/
def indexFrom (n : ℕ) : List α → List (ℕ × α)
  | [] => []
  | a :: as => (n, a) :: indexFrom (n + 1) as

theorem processLines_numbered_run (bs : ℚ) (run : List LineInfo)
    (hrun : ∀ l ∈ run, classify bs l = LineCat.numbered) :
    ∀ k : ℕ,
      processLines bs ⟨ListType.numbered, k, []⟩ run =
        (⟨ListType.numbered, k + run.length, []⟩,
         (indexFrom (k + 1) run).map
           (fun p => (Kind.numbered, toString p.1 ++ ". " ++ clean_numbered_text p.2.text))) := by
  induction run with
  | nil => intro k; simp [processLines, indexFrom]
  | cons l ls ih =>
      intro k
      have hl : classify bs l = LineCat.numbered := hrun l (List.mem_cons_self l ls)
      have hls : ∀ x ∈ ls, classify bs x = LineCat.numbered :=
        fun x hx => hrun x (List.mem_cons_of_mem l hx)
      simp only [processLines]
      rw [stepLine_numbered_cont bs ⟨ListType.numbered, k, []⟩ l hl rfl]
      rw [ih hls (k + 1)]
      simp only [indexFrom, List.map_cons, List.length_cons, flushPara, Prod.mk.injEq]
      constructor
      · congr 1
        omega
      · simp

theorem processLines_paragraph_run (bs : ℚ) (run : List LineInfo)
    (hrun : ∀ l ∈ run, classify bs l = LineCat.paragraph) (hne : run ≠ []) :
    ∀ st : PState,
      processLines bs st run =
        (⟨ListType.nolist, st.counter, st.para ++ run.map LineInfo.text⟩, []) := by
  induction run with
  | nil => exact absurd rfl hne
  | cons l ls ih =>
      intro st
      have hl : classify bs l = LineCat.paragraph := hrun l (List.mem_cons_self l ls)
      have hls : ∀ x ∈ ls, classify bs x = LineCat.paragraph :=
        fun x hx => hrun x (List.mem_cons_of_mem l hx)
      simp only [processLines]
      rw [stepLine_paragraph bs st l hl]
      cases ls with
      | nil => simp [processLines]
      | cons b bs' =>
          rw [ih hls (by simp) ⟨ListType.nolist, st.counter, st.para ++ [l.text]⟩]
          simp [List.append_assoc]

/-- A non-paragraph line first flushes the pending paragraph and then
behaves as it would from a cleared buffer; the resulting state does not
depend on the pending buffer. -/
theorem stepLine_flush_split (bs : ℚ) (st : PState) (li : LineInfo)
    (h : classify bs li ≠ LineCat.paragraph) :
    stepLine bs st li =
      ((stepLine bs ⟨st.listType, st.counter, []⟩ li).1,
       flushPara st.para ++ (stepLine bs ⟨st.listType, st.counter, []⟩ li).2) := by
  cases hc : classify bs li with
  | heading lvl =>
      rw [stepLine_heading bs st li lvl hc,
          stepLine_heading bs ⟨st.listType, st.counter, []⟩ li lvl hc]
      simp [flushPara]
  | bullet =>
      rw [stepLine_bullet bs st li hc, stepLine_bullet bs ⟨st.listType, st.counter, []⟩ li hc]
      simp [flushPara]
  | numbered =>
      rw [stepLine_numbered bs st li hc, stepLine_numbered bs ⟨st.listType, st.counter, []⟩ li hc]
      simp [flushPara]
  | emphasized =>
      rw [stepLine_emphasized bs st li hc,
          stepLine_emphasized bs ⟨st.listType, st.counter, []⟩ li hc]
      simp [flushPara]
  | paragraph => exact absurd hc h

/-- When the next line (if any) is not a paragraph line, a pending
paragraph buffer is flushed as one block in front of everything the
rest of the page produces. -/
theorem textPartsFrom_flush (bs : ℚ) (post : List LineInfo) (st : PState)
    (hpost : ∀ l, post.head? = some l → classify bs l ≠ LineCat.paragraph) :
    textPartsFrom bs st post =
      flushPara st.para ++ textPartsFrom bs ⟨st.listType, st.counter, []⟩ post := by
  cases post with
  | nil => simp [textPartsFrom, processLines, flushPara]
  | cons l rest =>
      have hnp : classify bs l ≠ LineCat.paragraph := hpost l rfl
      unfold textPartsFrom
      simp only [processLines]
      rw [stepLine_flush_split bs st l hnp]
      simp [List.append_assoc]

theorem mem_flushPara {b : Kind × String} {para : List String} (h : b ∈ flushPara para) :
    b = (Kind.paragraph, pyJoin " " para) := by
  unfold flushPara at h
  split at h
  · cases h
  · simpa using h

theorem mem_tableParts {b : Kind × String} {page : Page} (h : b ∈ tableParts page) :
    b.1 = Kind.table := by
  unfold tableParts at h
  rw [List.mem_filterMap] at h
  obtain ⟨t, _, ht⟩ := h
  simp only at ht
  split at ht
  · cases ht
  · cases ht; rfl

/-- Every part emitted by the line loop is a heading, bullet, numbered,
bold or paragraph part — never a table part. -/
theorem processLines_kind_not_table (bs : ℚ) (ls : List LineInfo) :
    ∀ st : PState, ∀ b ∈ (processLines bs st ls).2, b.1 ≠ Kind.table := by
  induction ls with
  | nil => intro st b hb; simp [processLines] at hb
  | cons li rest ih =>
      intro st b hb
      simp only [processLines, List.mem_append] at hb
      rcases hb with hb | hb
      · cases hc : classify bs li with
        | heading lvl =>
            rw [stepLine_heading bs st li lvl hc] at hb
            rcases List.mem_append.mp hb with hb | hb
            · rw [mem_flushPara hb]; simp
            · simp only [List.mem_singleton] at hb; rw [hb]; simp
        | bullet =>
            rw [stepLine_bullet bs st li hc] at hb
            rcases List.mem_append.mp hb with hb | hb
            · rw [mem_flushPara hb]; simp
            · simp only [List.mem_singleton] at hb; rw [hb]; simp
        | numbered =>
            rw [stepLine_numbered bs st li hc] at hb
            rcases List.mem_append.mp hb with hb | hb
            · rw [mem_flushPara hb]; simp
            · simp only [List.mem_singleton] at hb; rw [hb]; simp
        | emphasized =>
            rw [stepLine_emphasized bs st li hc] at hb
            rcases List.mem_append.mp hb with hb | hb
            · rw [mem_flushPara hb]; simp
            · simp only [List.mem_singleton] at hb; rw [hb]; simp
        | paragraph =>
            rw [stepLine_paragraph bs st li hc] at hb
            cases hb
      · exact ih (stepLine bs st li).1 b hb

theorem textPartsFrom_kind_not_table (bs : ℚ) (ls : List LineInfo) (st : PState)
    {b : Kind × String} (hb : b ∈ textPartsFrom bs st ls) : b.1 ≠ Kind.table := by
  unfold textPartsFrom at hb
  rcases List.mem_append.mp hb with hb | hb
  · exact processLines_kind_not_table bs ls st b hb
  · rw [mem_flushPara hb]; simp

theorem mem_insertLe (le : α → α → Bool) (x a : α) (l : List α) :
    a ∈ insertLe le x l ↔ a = x ∨ a ∈ l := by
  induction l with
  | nil => simp [insertLe]
  | cons y ys ih =>
      simp only [insertLe]
      split
      · simp
      · simp only [List.mem_cons, ih]
        tauto

theorem mem_sortLe (le : α → α → Bool) (a : α) (l : List α) :
    a ∈ sortLe le l ↔ a ∈ l := by
  induction l with
  | nil => simp [sortLe]
  | cons y ys ih =>
      simp only [sortLe, List.foldr_cons]
      rw [mem_insertLe]
      simp only [List.mem_cons]
      rw [show List.foldr (insertLe le) [] ys = sortLe le ys from rfl, ih]

/-! ### Claim C3 -/

/-- Claim C3: for any positive body size, the heading level of a line
with average size `fs` is fixed by inclusive descending thresholds on
`fs / bs`: at least 1.5 gives level 1, at least 1.3 gives level 2, at
least 1.15 gives level 3, below 1.15 gives no heading (boundary ratios
take the higher level), and an undefined average size never gives a
heading. -/
theorem heading_thresholds_inclusive (fs bs : ℚ) (hbs : 0 < bs) :
    ((1.5 : ℚ) ≤ fs / bs → get_heading_level (some fs) bs = some 1) ∧
    ((1.3 : ℚ) ≤ fs / bs ∧ fs / bs < 1.5 → get_heading_level (some fs) bs = some 2) ∧
    ((1.15 : ℚ) ≤ fs / bs ∧ fs / bs < 1.3 → get_heading_level (some fs) bs = some 3) ∧
    (fs / bs < 1.15 → get_heading_level (some fs) bs = none) ∧
    get_heading_level none bs = none := by
  have hbs0 : bs ≠ 0 := ne_of_gt hbs
  refine ⟨?_, ?_, ?_, ?_, rfl⟩
  · intro h
    have hfs0 : fs ≠ 0 := by
      intro h0
      rw [h0, zero_div] at h
      norm_num at h
    simp only [get_heading_level]
    rw [if_neg (by push_neg; exact ⟨hbs0, hfs0⟩)]
    simp only [if_pos h]
  · rintro ⟨h13, h15⟩
    have hfs0 : fs ≠ 0 := by
      intro h0
      rw [h0, zero_div] at h13
      norm_num at h13
    simp only [get_heading_level]
    rw [if_neg (by push_neg; exact ⟨hbs0, hfs0⟩)]
    rw [if_neg (by exact not_le.mpr h15), if_pos h13]
  · rintro ⟨h115, h13⟩
    have hfs0 : fs ≠ 0 := by
      intro h0
      rw [h0, zero_div] at h115
      norm_num at h115
    simp only [get_heading_level]
    rw [if_neg (by push_neg; exact ⟨hbs0, hfs0⟩)]
    rw [if_neg (by exact not_le.mpr (lt_of_lt_of_le h13 (by norm_num)))]
    rw [if_neg (by exact not_le.mpr h13), if_pos h115]
  · intro h
    by_cases hfs0 : fs = 0
    · simp only [get_heading_level]
      rw [if_pos (Or.inr hfs0)]
    · simp only [get_heading_level]
      rw [if_neg (by push_neg; exact ⟨hbs0, hfs0⟩)]
      rw [if_neg (by exact not_le.mpr (lt_of_lt_of_le h (by norm_num)))]
      rw [if_neg (by exact not_le.mpr (lt_of_lt_of_le h (by norm_num)))]
      rw [if_neg (by exact not_le.mpr h)]

/-- Witness for C3 at the exact level-1 boundary: 18pt over a 12pt body
is ratio 1.5 and classifies as level 1. -/
theorem heading_thresholds_inclusive_witness :
    (0 : ℚ) < 12 ∧ get_heading_level (some 18) 12 = some 1 :=
  ⟨by norm_num, (heading_thresholds_inclusive 18 12 (by norm_num)).1 (by norm_num)⟩

/-! ### Claim C10 -/

/-- Claim C10: on every page, all table parts come first: the page's
output splits into a block of table parts followed by parts none of
which is a table, wherever the table regions lie on the page (the text
state machine never emits a table part). -/
theorem page_tables_before_text_blocks (page : Page) (bs : ℚ) :
    ∃ tb txt, processPage page bs = tb ++ txt ∧
      (∀ b ∈ tb, b.1 = Kind.table) ∧ (∀ b ∈ txt, b.1 ≠ Kind.table) := by
  refine ⟨tableParts page,
          textPartsFrom bs initState (extract_text_with_formatting page bs), rfl, ?_, ?_⟩
  · intro b hb
    exact mem_tableParts hb
  · intro b hb
    exact textPartsFrom_kind_not_table bs _ initState hb

/-! ### Claim C4 -/

/-- Counterexample to C4: a grid with a one-row non-empty header and no
data rows does produce a table block (header plus separator line), both
from the serializer and in the page output. -/
theorem header_only_grid_emits_block :
    table_to_markdown [[some "a"]] = "| a |\n| --- |" ∧
    table_to_markdown [[some "a"]] ≠ "" ∧
    processPage ⟨none, [], [[[some "a"]]]⟩ 12 = [(Kind.table, "| a |\n| --- |")] := by
  refine ⟨rfl, ?_, rfl⟩
  decide

/-- Claim C4 as amended: only the two degenerate grids are dropped — an
empty grid, or a grid whose header row has no cells, produces no table
block; a non-empty one-row header alone still produces a block. -/
theorem empty_or_headerless_grid_no_block :
    table_to_markdown [] = "" ∧
    (∀ rows : List (List (Option String)), table_to_markdown ([] :: rows) = "") ∧
    (∀ (bs : ℚ) (rows : List (List (Option String))),
      processPage ⟨none, [], [[], [] :: rows]⟩ bs = []) := by
  refine ⟨rfl, fun rows => rfl, fun bs rows => ?_⟩
  simp [processPage, tableParts, table_to_markdown, textPartsFrom, processLines,
        extract_text_with_formatting, flushPara, initState]

/-! ### Claim C5 -/

/-- The serializer as the spec describes it (for comparison with the
code): identical to `table_to_markdown` except that a data row shorter
than the header is padded with empty cells to the header's width. -/
def table_to_markdown_spec_padded (table : List (List (Option String))) : String :=
  match table with
  | [] => ""
  | header :: rows =>
    if header = [] then ""
    else
      pyJoin "\n"
        (("| " ++ pyJoin " | " (header.map cellStr) ++ " |")
         :: ("| " ++ pyJoin " | " (List.replicate header.length "---") ++ " |")
         :: rows.map (fun row =>
              "| " ++
              pyJoin " | "
                (row.map (fun cell => replaceNlSpace (cellStr cell)) ++
                 List.replicate (header.length - row.length) "") ++
              " |"))

/-- Counterexample to C5: with header width 2, the short data row
`["c"]` is rendered with a single cell, not padded to the header's
width, so the output differs from the spec's padded serialization. -/
theorem short_row_not_padded :
    table_to_markdown [[some "a", some "b"], [some "c"]] =
      "| a | b |\n| --- | --- |\n| c |" ∧
    table_to_markdown_spec_padded [[some "a", some "b"], [some "c"]] =
      "| a | b |\n| --- | --- |\n| c |  |" ∧
    table_to_markdown [[some "a", some "b"], [some "c"]] ≠
      table_to_markdown_spec_padded [[some "a", some "b"], [some "c"]] := by
  refine ⟨rfl, rfl, ?_⟩
  decide

/-- Claim C5 as amended: the serializer never crashes (it is total) and
renders each data row with exactly its own cells — missing (`None`) and
empty cells as empty strings in place, never omitted — but performs no
padding, so the output agrees with the spec's padded serialization
exactly when every data row already has the header's cell count. -/
theorem equal_width_rows_match_padded_spec
    (header : List (Option String)) (rows : List (List (Option String)))
    (hh : header ≠ []) (hw : ∀ r ∈ rows, r.length = header.length) :
    table_to_markdown (header :: rows) = table_to_markdown_spec_padded (header :: rows) := by
  simp only [table_to_markdown, table_to_markdown_spec_padded]
  rw [if_neg hh, if_neg hh]
  have : rows.map (fun row =>
      "| " ++ pyJoin " | " (row.map (fun cell => replaceNlSpace (cellStr cell))) ++ " |") =
    rows.map (fun row =>
      "| " ++
      pyJoin " | "
        (row.map (fun cell => replaceNlSpace (cellStr cell)) ++
         List.replicate (header.length - row.length) "") ++
      " |") := by
    apply List.map_congr_left
    intro r hr
    rw [hw r hr]
    simp
  rw [this]

/-- Witness for C5's amended theorem: a two-column grid whose single
data row also has two cells serializes identically under code and
padded-spec serializers. -/
theorem equal_width_rows_match_padded_spec_witness :
    ([some "a", some "b"] : List (Option String)) ≠ [] ∧
    (∀ r ∈ [[some "c", none]], List.length r = 2) ∧
    table_to_markdown [[some "a", some "b"], [some "c", none]] =
      table_to_markdown_spec_padded [[some "a", some "b"], [some "c", none]] :=
  ⟨by decide, by decide,
   equal_width_rows_match_padded_spec [some "a", some "b"] [[some "c", none]]
     (by decide) (by decide)⟩

/-! ### Claim C6 -/

/-- Number of newline characters in a string. -/
def countNl (s : String) : ℕ :=
  s.data.count '\n'

theorem strData_append (a b : String) : (a ++ b).data = a.data ++ b.data := by
  cases a
  cases b
  rfl

theorem countNl_append (a b : String) : countNl (a ++ b) = countNl a + countNl b := by
  unfold countNl
  rw [strData_append, List.count_append]

theorem countNl_replaceNlSpace (s : String) : countNl (replaceNlSpace s) = 0 := by
  unfold countNl replaceNlSpace
  rw [List.count_eq_zero]
  intro hmem
  rw [List.mem_map] at hmem
  obtain ⟨c, _, hc⟩ := hmem
  by_cases h : c = '\n'
  · rw [if_pos h] at hc; cases hc
  · rw [if_neg h] at hc; exact h hc

theorem countNl_pyJoin_zero (sep : String) (hsep : countNl sep = 0) :
    ∀ ls : List String, (∀ s ∈ ls, countNl s = 0) → countNl (pyJoin sep ls) = 0 := by
  intro ls
  induction ls with
  | nil => intro _; rfl
  | cons s rest ih =>
      intro h
      cases rest with
      | nil => exact h s (List.mem_singleton.mpr rfl)
      | cons t r =>
          simp only [pyJoin]
          rw [countNl_append, countNl_append]
          rw [h s (List.mem_cons_self s (t :: r)), hsep,
              ih (fun x hx => h x (List.mem_cons_of_mem s hx))]

theorem countNl_pyJoin_newline :
    ∀ ls : List String, (∀ s ∈ ls, countNl s = 0) →
      countNl (pyJoin "\n" ls) = ls.length - 1 := by
  intro ls
  induction ls with
  | nil => intro _; rfl
  | cons s rest ih =>
      intro h
      cases rest with
      | nil =>
          simp only [pyJoin, List.length_singleton]
          exact h s (List.mem_singleton.mpr rfl)
      | cons t r =>
          simp only [pyJoin]
          rw [countNl_append, countNl_append]
          rw [h s (List.mem_cons_self s (t :: r))]
          have hrest := ih (fun x hx => h x (List.mem_cons_of_mem s hx))
          simp only [pyJoin] at hrest
          rw [hrest]
          simp only [List.length_cons]
          have : countNl "\n" = 1 := rfl
          rw [this]
          omega

/-- Counterexample to C6: a newline embedded in a header cell survives
into the serialized fragment verbatim (the claim would force it to be
replaced by a space). -/
theorem header_cell_newline_survives :
    table_to_markdown [[some "a\nb"]] = "| a\nb |\n| --- |" ∧
    table_to_markdown [[some "a\nb"]] ≠ "| a b |\n| --- |" := by
  refine ⟨rfl, ?_⟩
  decide

/-- Claim C6 as amended: newline normalization applies to data-row cells
only.  Provided the header cells themselves contain no newline, the
serialized fragment contains no literal multi-line cell: its newline
count is exactly the number of rendered rows minus one, however many
newlines the data cells contain. -/
theorem data_cells_newline_normalized
    (header : List (Option String)) (rows : List (List (Option String)))
    (hh : header ≠ []) (hhd : ∀ c ∈ header, countNl (cellStr c) = 0) :
    countNl (table_to_markdown (header :: rows)) = rows.length + 1 := by
  simp only [table_to_markdown]
  rw [if_neg hh]
  rw [countNl_pyJoin_newline]
  · simp
  · intro s hs
    simp only [List.mem_cons] at hs
    rcases hs with hs | hs | hs
    · subst hs
      rw [countNl_append, countNl_append]
      rw [countNl_pyJoin_zero " | " rfl (header.map cellStr)
           (by intro x hx
               rw [List.mem_map] at hx
               obtain ⟨c, hc, hcx⟩ := hx
               rw [← hcx]
               exact hhd c hc)]
      rfl
    · subst hs
      rw [countNl_append, countNl_append]
      rw [countNl_pyJoin_zero " | " rfl (List.replicate header.length "---")
           (by intro x hx
               rw [List.eq_of_mem_replicate hx]
               rfl)]
      rfl
    · rw [List.mem_map] at hs
      obtain ⟨row, _, hrow⟩ := hs
      rw [← hrow]
      rw [countNl_append, countNl_append]
      rw [countNl_pyJoin_zero " | " rfl (row.map (fun cell => replaceNlSpace (cellStr cell)))
           (by intro x hx
               rw [List.mem_map] at hx
               obtain ⟨c, _, hcx⟩ := hx
               rw [← hcx]
               exact countNl_replaceNlSpace (cellStr c))]
      rfl

/-- Witness for C6's amended theorem: a grid with a clean header and a
data cell containing a newline serializes to a fragment with exactly
two newlines (three rendered rows). -/
theorem data_cells_newline_normalized_witness :
    ([some "a"] : List (Option String)) ≠ [] ∧
    (∀ c ∈ [some "a"], countNl (cellStr c) = 0) ∧
    countNl (table_to_markdown [[some "a"], [some "b\nc"]]) = 2 :=
  ⟨by decide, by decide,
   data_cells_newline_normalized [some "a"] [[some "b\nc"]] (by decide) (by decide)⟩

/-! ### Claim C7 -/

/-- Counterexample to C7: the font name `"ARIAL-BOLD"` contains "bold"
under case-insensitive matching, yet the assembled line's bold flag is
false (the code only looks for the exact substrings `'Bold'` and
`'bold'`). -/
theorem uppercase_BOLD_not_detected :
    extract_text_with_formatting ⟨some "x", [⟨"x", some 12, "ARIAL-BOLD", 0, 0⟩], []⟩ 12 =
      [⟨"x", some 12, false⟩] ∧
    strContainsCI "ARIAL-BOLD" "bold" = true := by
  constructor
  · have hkey : yKeyOf ⟨"x", some 12, "ARIAL-BOLD", 0, 0⟩ = 0 := by
      norm_num [yKeyOf, roundHalfEven]
    simp [extract_text_with_formatting, sortedKeys, dedupFirst, dedupFirstAux, sortLe,
          insertLe, hkey, buildLine, lineGroup, sortByX0, pyJoin, pyStrip, stripChars,
          isPySpace, truthySize, strContains, listContains, listStartsWith]
  · decide

/-- Claim C7 as amended: an assembled line's bold flag is true iff some
constituent character's font identifier contains `"Bold"` or `"bold"`
as an exact, case-sensitive substring. -/
theorem line_bold_iff_substring_Bold_or_bold (chars : List PChar) (y : ℤ) (li : LineInfo)
    (h : buildLine (lineGroup chars y) = some li) :
    (li.is_bold = true ↔
      ∃ c ∈ lineGroup chars y,
        (strContains c.fontname "Bold" || strContains c.fontname "bold") = true) := by
  simp only [buildLine] at h
  split at h
  · cases h
  · injection h with h
    subst h
    simp only [List.any_eq_true, List.mem_map]
    constructor
    · rintro ⟨fn, ⟨c, hc, rfl⟩, hp⟩
      exact ⟨c, (mem_sortLe _ c _).mp hc, hp⟩
    · rintro ⟨c, hc, hp⟩
      exact ⟨c.fontname, ⟨c, (mem_sortLe _ c _).mpr hc, rfl⟩, hp⟩

/-- Witness for C7's amended theorem on a one-character line whose font
is `"F-Bold"`: the flag is set and the witnessing character exists. -/
theorem line_bold_iff_substring_Bold_or_bold_witness :
    buildLine (lineGroup [⟨"x", some 12, "F-Bold", 0, 0⟩] 0) = some ⟨"x", some 12, true⟩ ∧
    ∃ c ∈ lineGroup [⟨"x", some 12, "F-Bold", 0, 0⟩] 0,
      (strContains c.fontname "Bold" || strContains c.fontname "bold") = true := by
  have hb : buildLine (lineGroup [⟨"x", some 12, "F-Bold", 0, 0⟩] 0) =
      some ⟨"x", some 12, true⟩ := by
    have hkey : yKeyOf ⟨"x", some 12, "F-Bold", 0, 0⟩ = 0 := by
      norm_num [yKeyOf, roundHalfEven]
    simp [buildLine, lineGroup, hkey, sortByX0, sortLe, insertLe, pyJoin, pyStrip,
          stripChars, isPySpace, truthySize, strContains, listContains, listStartsWith]
  exact ⟨hb, (line_bold_iff_substring_Bold_or_bold [⟨"x", some 12, "F-Bold", 0, 0⟩] 0
           ⟨"x", some 12, true⟩ hb).mp rfl⟩

/-! ### Claim C8 -/

/-- Counterexample to C8: a page with no character geometry whose text
is `"- x"` produces a Bullet block, not a Paragraph block — the bullet
and numbered patterns are purely textual and still fire on fallback
lines. -/
theorem no_geometry_page_emits_bullet :
    processPage ⟨some "- x", [], []⟩ 12 = [(Kind.bullet, "- x")] ∧
    Kind.bullet ≠ Kind.paragraph :=
  ⟨by decide, by decide⟩

theorem extract_no_chars_fields (page : Page) (bs : ℚ) (hchars : page.chars = []) :
    ∀ li ∈ extract_text_with_formatting page bs,
      li.font_size = none ∧ li.is_bold = false := by
  intro li hli
  cases hx : page.extractText with
  | none =>
      simp only [extract_text_with_formatting, hx] at hli
      cases hli
  | some t =>
      simp only [extract_text_with_formatting, hx, hchars, if_true] at hli
      split at hli
      · cases hli
      · rw [List.mem_filterMap] at hli
        obtain ⟨line, _, hline⟩ := hli
        split at hline
        · cases hline
        · cases hline
          exact ⟨rfl, rfl⟩

theorem processLines_no_heading_bold (bs : ℚ) :
    ∀ (ls : List LineInfo) (st : PState),
      (∀ li ∈ ls, li.font_size = none ∧ li.is_bold = false) →
      ∀ b ∈ (processLines bs st ls).2, b.1 ≠ Kind.heading ∧ b.1 ≠ Kind.bold := by
  intro ls
  induction ls with
  | nil => intro st _ b hb; simp [processLines] at hb
  | cons li rest ih =>
      intro st hls b hb
      have h1 := (hls li (List.mem_cons_self li rest)).1
      have h2 := (hls li (List.mem_cons_self li rest)).2
      have hgl : get_heading_level li.font_size bs = none := by rw [h1]; rfl
      have hcp : classify bs li = LineCat.bullet ∨ classify bs li = LineCat.numbered ∨
          classify bs li = LineCat.paragraph := by
        unfold classify
        rw [hgl]
        by_cases hb2 : is_bullet_list li.text
        · left; simp [hb2]
        · by_cases hn : is_numbered_list li.text
          · right; left; simp [hb2, hn]
          · right; right; simp [hb2, hn, h2]
      simp only [processLines, List.mem_append] at hb
      rcases hb with hb | hb
      · rcases hcp with hc | hc | hc
        · rw [stepLine_bullet bs st li hc] at hb
          rcases List.mem_append.mp hb with hb | hb
          · rw [mem_flushPara hb]; exact ⟨by simp, by simp⟩
          · simp only [List.mem_singleton] at hb; rw [hb]; exact ⟨by simp, by simp⟩
        · rw [stepLine_numbered bs st li hc] at hb
          rcases List.mem_append.mp hb with hb | hb
          · rw [mem_flushPara hb]; exact ⟨by simp, by simp⟩
          · simp only [List.mem_singleton] at hb; rw [hb]; exact ⟨by simp, by simp⟩
        · rw [stepLine_paragraph bs st li hc] at hb
          cases hb
      · exact ih (stepLine bs st li).1 (fun x hx => hls x (List.mem_cons_of_mem li hx)) b hb

/-- Claim C8 as amended: on a page with no per-character geometry, every
line degrades to undefined size and `bold=false`, and consequently the
page never produces a heading or emphasized (bold) block — but bullet
and numbered blocks can still arise from the purely textual list
patterns. -/
theorem no_geometry_page_no_heading_or_bold (page : Page) (bs : ℚ)
    (hchars : page.chars = []) :
    (∀ li ∈ extract_text_with_formatting page bs,
        li.font_size = none ∧ li.is_bold = false) ∧
    (∀ b ∈ processPage page bs, b.1 ≠ Kind.heading ∧ b.1 ≠ Kind.bold) := by
  have hf := extract_no_chars_fields page bs hchars
  refine ⟨hf, ?_⟩
  intro b hb
  unfold processPage at hb
  rcases List.mem_append.mp hb with hb | hb
  · have ht := mem_tableParts hb
    exact ⟨by rw [ht]; simp, by rw [ht]; simp⟩
  · unfold textPartsFrom at hb
    rcases List.mem_append.mp hb with hb | hb
    · exact processLines_no_heading_bold bs _ initState hf b hb
    · rw [mem_flushPara hb]; exact ⟨by simp, by simp⟩

/-- Witness for C8's amended theorem on a one-line plain-text page. -/
theorem no_geometry_page_no_heading_or_bold_witness :
    (∀ li ∈ extract_text_with_formatting ⟨some "x", [], []⟩ 12,
        li.font_size = none ∧ li.is_bold = false) ∧
    (∀ b ∈ processPage ⟨some "x", [], []⟩ 12, b.1 ≠ Kind.heading ∧ b.1 ≠ Kind.bold) :=
  no_geometry_page_no_heading_or_bold ⟨some "x", [], []⟩ 12 rfl

/-! ### Claim C9 -/

/-- A page carrying no input at all: no characters, no tables, and falsy
extracted text. -/
def isEmptyPage (p : Page) : Prop :=
  p.chars = [] ∧ p.tables = [] ∧ (p.extractText = none ∨ p.extractText = some "")

theorem processPage_of_empty (p : Page) (bs : ℚ) (hp : isEmptyPage p) :
    processPage p bs = [] := by
  obtain ⟨hc, ht, hx⟩ := hp
  have hlines : extract_text_with_formatting p bs = [] := by
    unfold extract_text_with_formatting
    rcases hx with hx | hx
    · rw [hx]
    · rw [hx]; simp
  unfold processPage tableParts textPartsFrom
  rw [ht, hlines]
  simp [processLines, flushPara, initState]

theorem convertPages_of_empty (body : ℚ) :
    ∀ (pdf : List Page) (k t : ℕ), (∀ p ∈ pdf, isEmptyPage p) →
      k + pdf.length = t + 1 →
      convertPages body t k pdf = List.replicate (pdf.length - 1) "" := by
  intro pdf
  induction pdf with
  | nil => intro k t _ _; rfl
  | cons p rest ih =>
      intro k t hall hk
      have hp := hall p (List.mem_cons_self p rest)
      simp only [convertPages]
      rw [processPage_of_empty p body hp]
      cases rest with
      | nil =>
          have hnl : ¬ k < t := by
            simp only [List.length_cons, List.length_nil] at hk
            omega
          rw [if_neg hnl]
          rfl
      | cons q qs =>
          have hlt : k < t := by
            simp only [List.length_cons] at hk
            omega
          rw [if_pos hlt]
          rw [ih (k + 1) t (fun x hx => hall x (List.mem_cons_of_mem p hx))
               (by simp only [List.length_cons] at hk ⊢; omega)]
          simp [pageLines, List.replicate_succ]

/-- Counterexample to C9: three pages with no characters, no tables and
no text convert to the string `"\n"` (the two inter-page blank
separators joined), which is not the empty string. -/
theorem three_empty_pages_newline_output :
    convert_pdf_to_markdown [⟨none, [], []⟩, ⟨none, [], []⟩, ⟨none, [], []⟩] = "\n" ∧
    ("\n" : String) ≠ "" :=
  ⟨rfl, by decide⟩

/-- Claim C9 as amended: on wholly empty input the conversion never
fails and emits no content — the output is exactly the joined blank
inter-page separators (one fewer than the number of pages), which is
the empty string whenever the document has at most two pages (in
particular for zero pages). -/
theorem empty_pages_only_blank_separators (pdf : List Page)
    (h : ∀ p ∈ pdf, isEmptyPage p) :
    convert_pdf_to_markdown pdf = pyJoin "\n" (List.replicate (pdf.length - 1) "") ∧
    (pdf.length ≤ 2 → convert_pdf_to_markdown pdf = "") := by
  have hsizes : (pdf.map (fun p => p.chars.filterMap truthySize)).flatten = [] := by
    rw [List.flatten_eq_nil_iff]
    intro x hx
    rw [List.mem_map] at hx
    obtain ⟨p, hp, hpx⟩ := hx
    rw [← hpx, (h p hp).1]
    rfl
  have hmain : convert_pdf_to_markdown pdf =
      pyJoin "\n" (List.replicate (pdf.length - 1) "") := by
    simp only [convert_pdf_to_markdown]
    rw [hsizes]
    have h12 : (if ([] : List ℚ) = [] then (12 : ℚ)
        else mostCommonFirst (List.map round1 []) (dedupFirst (List.map round1 []))) = 12 := rfl
    rw [h12]
    rw [convertPages_of_empty 12 pdf 1 pdf.length h (by omega)]
  refine ⟨hmain, ?_⟩
  intro hlen
  rw [hmain]
  have : pdf.length - 1 = 0 ∨ pdf.length - 1 = 1 := by omega
  rcases this with h0 | h1
  · rw [h0]; rfl
  · rw [h1]; rfl

/-- Witness for C9's amended theorem: two empty pages convert to the
empty string. -/
theorem empty_pages_only_blank_separators_witness :
    (∀ p ∈ [(⟨none, [], []⟩ : Page), ⟨none, [], []⟩], isEmptyPage p) ∧
    convert_pdf_to_markdown [⟨none, [], []⟩, ⟨none, [], []⟩] = "" := by
  have hall : ∀ p ∈ [(⟨none, [], []⟩ : Page), ⟨none, [], []⟩], isEmptyPage p := by
    intro p hp
    have hpe : p = (⟨none, [], []⟩ : Page) := by
      rcases List.mem_cons.mp hp with h | h
      · exact h
      · simpa using h
    rw [hpe]
    exact ⟨rfl, rfl, Or.inl rfl⟩
  exact ⟨hall, (empty_pages_only_blank_separators _ hall).2 (by norm_num)⟩

/-! ### Claim C1 -/

/-- Claim C1: on any page whose line stream splits as
`pre ++ run ++ post` with `run` a non-empty run of Numbered-classified
lines not preceded by a Numbered line, the blocks emitted for the run
are exactly one Numbered block per line carrying the ordinals
`1, 2, …, N` (`indexFrom 1 run`) — built from the counter, not from the
source numerals — preceded by the flush of any pending paragraph, and
the loop continues with counter `N` and list type `numbered`. -/
theorem numbered_run_ordinals_contiguous (bs : ℚ) (page : Page)
    (pre run post : List LineInfo)
    (hsplit : extract_text_with_formatting page bs = pre ++ run ++ post)
    (hne : run ≠ [])
    (hrun : ∀ l ∈ run, classify bs l = LineCat.numbered)
    (hpre : ∀ l, pre.getLast? = some l → classify bs l ≠ LineCat.numbered) :
    processPage page bs =
      tableParts page ++
      (processLines bs initState pre).2 ++
      flushPara (processLines bs initState pre).1.para ++
      (indexFrom 1 run).map
        (fun p => (Kind.numbered, toString p.1 ++ ". " ++ clean_numbered_text p.2.text)) ++
      textPartsFrom bs ⟨ListType.numbered, run.length, []⟩ post := by
  have hlt : (processLines bs initState pre).1.listType ≠ ListType.numbered := by
    cases pre with
    | nil => simp [processLines, initState]
    | cons a as =>
        have hnn : (a :: as : List LineInfo) ≠ [] := by simp
        have hl : (a :: as).getLast? = some ((a :: as).getLast hnn) :=
          List.getLast?_eq_getLast (a :: as) hnn
        rw [processLines_listType_getLast bs (a :: as) _ hl initState]
        intro hcontra
        exact hpre _ hl (ltOfCat_numbered hcontra)
  unfold processPage
  rw [hsplit, List.append_assoc, textPartsFrom_append bs initState pre (run ++ post)]
  cases run with
  | nil => exact absurd rfl hne
  | cons r rs =>
      have hr : classify bs r = LineCat.numbered := hrun r (List.mem_cons_self r rs)
      have hrs : ∀ l ∈ rs, classify bs l = LineCat.numbered :=
        fun l hl => hrun l (List.mem_cons_of_mem r hl)
      rw [textPartsFrom_append bs (processLines bs initState pre).1 (r :: rs) post]
      have hstep : processLines bs (processLines bs initState pre).1 (r :: rs) =
          (⟨ListType.numbered, (r :: rs).length, []⟩,
           flushPara (processLines bs initState pre).1.para ++
             (indexFrom 1 (r :: rs)).map
               (fun p => (Kind.numbered,
                 toString p.1 ++ ". " ++ clean_numbered_text p.2.text))) := by
        simp only [processLines]
        rw [stepLine_numbered_reset bs (processLines bs initState pre).1 r hr hlt]
        rw [processLines_numbered_run bs rs hrs 1]
        simp only [indexFrom, List.map_cons, List.length_cons, Prod.mk.injEq]
        constructor
        · congr 1
          omega
        · simp
      rw [hstep]
      simp [List.append_assoc]

/-- Witness for C1: two fallback lines with source numerals `1.` and
`3.` re-number to ordinals 1 and 2. -/
theorem numbered_run_ordinals_contiguous_witness :
    (∀ l ∈ [(⟨"1. a", none, false⟩ : LineInfo), ⟨"3. b", none, false⟩],
       classify 12 l = LineCat.numbered) ∧
    processPage ⟨some "1. a\n3. b", [], []⟩ 12 =
      [(Kind.numbered, "1. a"), (Kind.numbered, "2. b")] := by
  constructor
  · decide
  · have h := numbered_run_ordinals_contiguous 12 ⟨some "1. a\n3. b", [], []⟩ []
      [⟨"1. a", none, false⟩, ⟨"3. b", none, false⟩] []
      (by decide) (by decide) (by decide) (by intro l hl; cases hl)
    rw [h]
    decide

/-! ### Claim C2 -/

/-- Claim C2: on any page whose line stream splits as
`pre ++ run ++ post` with `run` a non-empty maximal run of
Paragraph-classified lines (neither preceded nor followed by a
Paragraph-classified line), the run contributes exactly one Paragraph
block whose text is the run's texts joined by single spaces — flushed
only at the next non-paragraph line or at end of page — and every
bullet- or numbered-classified source line emits exactly one list block
of its own, never merged. -/
theorem paragraph_run_single_block (bs : ℚ) (page : Page)
    (pre run post : List LineInfo)
    (hsplit : extract_text_with_formatting page bs = pre ++ run ++ post)
    (hne : run ≠ [])
    (hrun : ∀ l ∈ run, classify bs l = LineCat.paragraph)
    (hpre : ∀ l, pre.getLast? = some l → classify bs l ≠ LineCat.paragraph)
    (hpost : ∀ l, post.head? = some l → classify bs l ≠ LineCat.paragraph) :
    (processPage page bs =
      tableParts page ++
      (processLines bs initState pre).2 ++
      [(Kind.paragraph, pyJoin " " (run.map LineInfo.text))] ++
      textPartsFrom bs ⟨ListType.nolist, (processLines bs initState pre).1.counter, []⟩ post) ∧
    (∀ (st : PState) (li : LineInfo), classify bs li = LineCat.bullet →
      (stepLine bs st li).2 =
        flushPara st.para ++ [(Kind.bullet, "- " ++ clean_bullet_text li.text)]) ∧
    (∀ (st : PState) (li : LineInfo), classify bs li = LineCat.numbered →
      (stepLine bs st li).2 =
        flushPara st.para ++
          [(Kind.numbered,
            toString (stepLine bs st li).1.counter ++ ". " ++ clean_numbered_text li.text)]) := by
  refine ⟨?_, ?_, ?_⟩
  · have hpara : (processLines bs initState pre).1.para = [] := by
      cases pre with
      | nil => simp [processLines, initState]
      | cons a as =>
          have hnn : (a :: as : List LineInfo) ≠ [] := by simp
          have hl : (a :: as).getLast? = some ((a :: as).getLast hnn) :=
            List.getLast?_eq_getLast (a :: as) hnn
          exact processLines_para_getLast bs (a :: as) _ hl (hpre _ hl) initState
    unfold processPage
    rw [hsplit, List.append_assoc, textPartsFrom_append bs initState pre (run ++ post)]
    rw [textPartsFrom_append bs (processLines bs initState pre).1 run post]
    rw [processLines_paragraph_run bs run hrun hne (processLines bs initState pre).1]
    rw [hpara]
    simp only [List.nil_append]
    rw [textPartsFrom_flush bs post
         ⟨ListType.nolist, (processLines bs initState pre).1.counter, run.map LineInfo.text⟩
         hpost]
    have hflush : flushPara (run.map LineInfo.text) =
        [(Kind.paragraph, pyJoin " " (run.map LineInfo.text))] := by
      unfold flushPara
      rw [if_neg (by simpa using hne)]
    rw [hflush]
    simp [List.append_assoc]
  · intro st li hc
    rw [stepLine_bullet bs st li hc]
  · intro st li hc
    rw [stepLine_numbered bs st li hc]

/-- Witness for C2: two consecutive paragraph lines merge into one
Paragraph block, flushed by the following bullet line. -/
theorem paragraph_run_single_block_witness :
    (∀ l ∈ [(⟨"a", none, false⟩ : LineInfo), ⟨"b", none, false⟩],
       classify 12 l = LineCat.paragraph) ∧
    processPage ⟨some "a\nb\n- c", [], []⟩ 12 =
      [(Kind.paragraph, "a b"), (Kind.bullet, "- c")] := by
  constructor
  · decide
  · have h := (paragraph_run_single_block 12 ⟨some "a\nb\n- c", [], []⟩ []
      [⟨"a", none, false⟩, ⟨"b", none, false⟩] [⟨"- c", none, false⟩]
      (by decide) (by decide) (by decide)
      (by intro l hl; cases hl) (by intro l hl; cases hl; decide)).1
    rw [h]
    decide

end PdfMd
